/-
  Verification of the reduct-cli export/transfer pipeline against its
  natural-language specification.

  The embedding follows `src/reduct_cli/export.py` (the export command) and
  its unit tests.  Components that live in modules not present under `src/`
  (`reduct_cli/utils/helpers.py`: timestamp and size parsing, the record
  stream reader; `reduct_cli/utils/error.py`: the error handler;
  `reduct_cli/bucket.py`: the bucket-create command) are modelled from the
  specification text, and each such definition says so in its doc comment.
-/
import Mathlib

namespace ReductCli

/-! ## Data model

`EntryInfo` and `Record` mirror the fields the code actually touches
(`entry.name`, `entry.oldest_record`, `entry.latest_record`,
`record.timestamp`, `record.size`, `record.content_type`, and the byte
stream read in chunks).  Bytes are `Nat`s, a byte stream is the list of
chunks the async reader yields. -/

structure EntryInfo where
  name : String
  record_count : Nat
  size : Nat
  oldest_record : Nat
  latest_record : Nat
  deriving Repr, DecidableEq

structure Record where
  timestamp : Nat
  size : Nat
  content_type : Option String
  chunks : List (List Nat)
  deriving Repr, DecidableEq

/-! ## Timestamp parsing (modelled from the spec)

`reduct_cli/utils/helpers.py`, which parses the `--start`/`--stop` ISO-8601
strings into UTC microseconds, is not under `src/`; only its caller
(`export.py`) and its tests are.  The parser below is modelled from the
spec: ISO-8601 `YYYY-MM-DDThh:mm:ss[.ffffff]` with either a `Z` designator
or an explicit `±hh:mm` offset, normalised to UTC microseconds since the
Unix epoch. -/

/-- Fields of a parsed ISO-8601 timestamp.  `offsetMinutes` is the declared
UTC offset in minutes (`Z` ↦ 0, `+02:00` ↦ 120, `-05:30` ↦ -330). -/
structure TsFields where
  year : Nat
  month : Nat
  day : Nat
  hour : Nat
  minute : Nat
  second : Nat
  microsecond : Nat
  offsetMinutes : Int
  deriving Repr, DecidableEq

/-- Days from the civil date to the epoch base used below (years shifted by
+400 so the arithmetic stays in `Nat`); standard civil-calendar counting
(Gregorian, proleptic). -/
def natCivilDays (y m d : Nat) : Nat :=
  let y' := if m ≤ 2 then y - 1 else y
  let era := y' / 400
  let yoe := y' % 400
  let doy := (153 * (if 2 < m then m - 3 else m + 9) + 2) / 5 + (d - 1)
  let doe := yoe * 365 + yoe / 4 - yoe / 100 + doy
  era * 146097 + doe

/-- Days since 1970-01-01 of a civil date (proleptic Gregorian calendar). -/
def daysFromCivil (y m d : Nat) : Int :=
  (natCivilDays (y + 400) m d : Int) - 146097 - 719468

/-- Modelled from the spec: the instant denoted by parsed ISO-8601 fields,
as UTC microseconds since the Unix epoch.  The declared offset is
subtracted, so the output is normalised to UTC regardless of the input
offset. -/
def fieldsToMicros (f : TsFields) : Int :=
  (daysFromCivil f.year f.month f.day * 86400
      + f.hour * 3600 + f.minute * 60 + f.second) * 1000000
    + f.microsecond - f.offsetMinutes * 60000000

/-- Take exactly `n` decimal digits off the front of a character list,
returning their value. -/
def takeDigits : Nat → List Char → Option (Nat × List Char)
  | 0, cs => some (0, cs)
  | n + 1, c :: cs =>
    if c.isDigit then
      match takeDigits n cs with
      | some (v, rest) => some ((c.toNat - 48) * 10 ^ n + v, rest)
      | none => none
    else none
  | _ + 1, [] => none

/-- Consume an expected literal character. -/
def expectChar (c : Char) : List Char → Option (List Char)
  | c' :: cs => if c' = c then some cs else none
  | [] => none

/-- Fractional seconds: a leading run of 1 to 6 digits, scaled to
microseconds (`.1003` ↦ 100300). -/
def takeFraction (cs : List Char) : Option (Nat × List Char) :=
  let digits := cs.takeWhile Char.isDigit
  let rest := cs.dropWhile Char.isDigit
  if digits.length = 0 ∨ 6 < digits.length then none
  else
    let v := digits.foldl (fun acc c => acc * 10 + (c.toNat - 48)) 0
    some (v * 10 ^ (6 - digits.length), rest)

/-- Parse the trailing designator: `Z`, or `±hh:mm`.  Returns the offset in
minutes. -/
def parseOffset : List Char → Option Int
  | ['Z'] => some 0
  | c :: cs =>
    if c = '+' ∨ c = '-' then
      match takeDigits 2 cs with
      | some (h, cs₁) =>
        match expectChar ':' cs₁ with
        | some cs₂ =>
          match takeDigits 2 cs₂ with
          | some (m, []) =>
            let mag : Int := h * 60 + m
            some (if c = '+' then mag else -mag)
          | _ => none
        | none => none
      | none => none
    else none
  | [] => none

/-- Modelled from the spec: structural parse of an ISO-8601 timestamp
string into its fields.  Accepts `YYYY-MM-DDThh:mm:ss`, optional fractional
seconds, then a mandatory `Z` or `±hh:mm` offset; rejects everything
else. -/
def parseFields (s : String) : Option TsFields := do
  let cs := s.toList
  let (y, cs) ← takeDigits 4 cs
  let cs ← expectChar '-' cs
  let (mo, cs) ← takeDigits 2 cs
  let cs ← expectChar '-' cs
  let (d, cs) ← takeDigits 2 cs
  let cs ← expectChar 'T' cs
  let (h, cs) ← takeDigits 2 cs
  let cs ← expectChar ':' cs
  let (mi, cs) ← takeDigits 2 cs
  let cs ← expectChar ':' cs
  let (sec, cs) ← takeDigits 2 cs
  let (us, cs) ←
    match cs with
    | '.' :: cs' => takeFraction cs'
    | _ => some (0, cs)
  if ¬ (1 ≤ mo ∧ mo ≤ 12 ∧ 1 ≤ d ∧ d ≤ 31 ∧ h ≤ 23 ∧ mi ≤ 59 ∧ sec ≤ 59) then
    none
  else
    let off ← parseOffset cs
    pure ⟨y, mo, d, h, mi, sec, us, off⟩

/-- Modelled from the spec: the timestamp parser used for `--start`/`--stop`
(`ParseError` is modelled as `none`); output is UTC microseconds since
epoch. -/
def parseTimestamp (s : String) : Option Int :=
  (parseFields s).map fieldsToMicros

/-- C1: the `--start`/`--stop` timestamp parser normalises every parsed
ISO-8601 input to UTC microseconds since epoch: an input carrying offset
`o` minutes denotes an instant `o * 60000000` microseconds earlier than the
same wall-clock fields with `Z`; in particular
`2022-01-02T00:00:01.100300+02:00` parses to exactly `1641074401100300`,
which is 7200000000 microseconds (2 hours) less than the `Z`-designated
reading `1641081601100300` of the same wall clock. -/
theorem parseTimestamp_normalizes_to_utc :
    (∀ (f : TsFields) (o : Int),
      fieldsToMicros { f with offsetMinutes := o } =
        fieldsToMicros { f with offsetMinutes := 0 } - o * 60000000) ∧
    parseTimestamp "2022-01-02T00:00:01.100300+02:00" =
      some 1641074401100300 ∧
    parseTimestamp "2022-01-02T00:00:01.100300Z" = some 1641081601100300 ∧
    parseTimestamp "2022-01-02T00:00:01.100300+02:00" =
      some (1641081601100300 - 7200000000) := by
  refine ⟨fun f o => ?_, by rfl, by rfl, by rfl⟩
  simp only [fieldsToMicros]
  ring

/-! ## The export command's filesystem behaviour (`src/reduct_cli/export.py`)

`_export_entry` and `_export_bucket` are embedded as the sequence of
filesystem operations they perform.  Paths are segment lists relative to
the working directory (`[]` is the CWD). -/

inductive Event where
  | mkdirE (p : List String)
  | writeE (p : List String) (content : List Nat)
  deriving Repr, DecidableEq

/-- `export.py` line 27: the target file name is
`f"\x7brecord.timestamp\x7d.bin"` — the `.bin` extension is hard-coded. -/
def recordFileName (r : Record) : String :=
  toString r.timestamp ++ ".bin"

/-- `_export_entry` (lines 22-29): make the entry directory
(`exist_ok=True`), then for each record open `<entry_path>/<ts>.bin` in
`"wb"` mode and write the chunks in order; the bytes that end up in the
file are the in-order concatenation of the chunks. -/
def entryTrace (path : List String) (e : EntryInfo) (records : List Record) :
    List Event :=
  Event.mkdirE (path ++ [e.name]) ::
    records.map fun r =>
      Event.writeE (path ++ [e.name, recordFileName r]) r.chunks.flatten

/-- `_export_bucket` (lines 32-46), sequentialised: make the bucket folder
`Path(bucket_name)` (relative to the CWD — the command takes no
destination-directory argument), then run one `_export_entry` per entry of
`get_entry_list()`, in listing order, with no filtering and no sorting. -/
def bucketTraceSeq (bucketName : String) (ers : List (EntryInfo × List Record)) :
    List Event :=
  Event.mkdirE [bucketName] ::
    (ers.map fun er => entryTrace [bucketName] er.1 er.2).flatten

/-! Fixtures from the unit tests (`tests/export/folder_test.py`,
`tests/mirror_test.py`): bucket `src_bucket` with entries `entry-1`,
`entry-2` and records `b"Hey"` (content type `image/png`) and `b"Bye"` (no
content type). -/

def entry1 : EntryInfo :=
  ⟨"entry-1", 2, 1050000, 1000000000, 5000000000⟩

def entry2 : EntryInfo :=
  ⟨"entry-2", 5, 50000, 6000000000, 8000000000⟩

def recHey : Record :=
  ⟨1000000000, 3, some "image/png", [[72, 101, 121]]⟩

def recBye : Record :=
  ⟨5000000000, 3, none, [[66, 121, 101]]⟩

/-- C3: what the code actually produces for the test fixture.  Exactly one
file per record whose content is the in-order concatenation of the record's
chunks, but the path is `<cwd>/<bucket-name>/<entry-name>/<timestamp>.bin`:
there is no destination-directory component (the `folder` command accepts
no such argument) and the extension is always `bin`, contradicting the
claimed `<dest-dir>/<bucket-name>/<entry-name>/<timestamp>.<ext>` layout
asserted by `tests/export/folder_test.py`. -/
theorem folder_export_path_lacks_dest_dir :
    bucketTraceSeq "src_bucket" [(entry1, [recHey])] =
      [Event.mkdirE ["src_bucket"],
       Event.mkdirE ["src_bucket", "entry-1"],
       Event.writeE ["src_bucket", "entry-1", "1000000000.bin"]
         [72, 101, 121]] ∧
    (["src_bucket", "entry-1", "1000000000.bin"] : List String) ≠
      ["reduct_export", "src_bucket", "entry-1", "1000000000.png"] := by
  exact ⟨by decide, by decide⟩

/-- C4: the extension chosen by the code never depends on the record's
content type (and there is no `--ext` override in the command): every
record is written as `<timestamp>.bin`, even the fixture record that
declares `image/png` and that `tests/export/folder_test.py` expects at
`<ts>.png`. -/
theorem record_extension_ignores_content_type :
    (∀ (r : Record) (ct : Option String),
      recordFileName { r with content_type := ct } = recordFileName r) ∧
    recordFileName recHey = "1000000000.bin" ∧
    recordFileName recHey ≠ "1000000000.png" ∧
    recordFileName recBye = "5000000000.bin" := by
  exact ⟨fun r ct => rfl, by decide, by decide, by decide⟩

/-- C5: the code transfers every entry returned by `get_entry_list()`, in
listing order: there is no `--entries` subset filter and no name sorting.
With the fixture listed as `[entry-2, entry-1]` both entries are processed
in that unsorted order, and the result is not the
`--entries=entry-2`-filtered trace the tests require. -/
theorem export_ignores_entry_selection :
    bucketTraceSeq "src_bucket" [(entry2, []), (entry1, [])] =
      [Event.mkdirE ["src_bucket"],
       Event.mkdirE ["src_bucket", "entry-2"],
       Event.mkdirE ["src_bucket", "entry-1"]] ∧
    bucketTraceSeq "src_bucket" [(entry1, []), (entry2, [])] ≠
      [Event.mkdirE ["src_bucket"],
       Event.mkdirE ["src_bucket", "entry-2"]] := by
  exact ⟨by decide, by decide⟩

/-! ## Filesystem semantics

`Path.mkdir(exist_ok=True)` (no `parents=True`) succeeds when the
directory already exists, creates it when its parent exists, and fails
otherwise; `open(..., "wb")` truncates/creates the file (its directory must
exist) and the writes replace the file's content. -/

structure FS where
  dirExists : List String → Bool
  fileContent : List String → Option (List Nat)

def FS.mkdirExistOk (fs : FS) (p : List String) : Option FS :=
  if fs.dirExists p then some fs
  else if fs.dirExists p.dropLast then
    some { dirExists := fun q => if q = p then true else fs.dirExists q,
           fileContent := fs.fileContent }
  else none

def FS.writeFile (fs : FS) (p : List String) (c : List Nat) : FS :=
  { dirExists := fs.dirExists,
    fileContent := fun q => if q = p then some c else fs.fileContent q }

def applyEvent (fs : FS) : Event → Option FS
  | .mkdirE p => fs.mkdirExistOk p
  | .writeE p c =>
    if fs.dirExists p.dropLast then some (fs.writeFile p c) else none

def applyTrace (fs : FS) : List Event → Option FS
  | [] => some fs
  | e :: t =>
    match applyEvent fs e with
    | some fs' => applyTrace fs' t
    | none => none

/-! ## Concurrency

`_export_bucket` runs the entry pipelines concurrently under asyncio's
single-threaded cooperative scheduler, so the observable event sequence is
some order-preserving interleaving of the per-entry sequences. -/

/-- `Merge ls t`: `t` is an interleaving of the lists in `ls` that keeps
each list's internal order. -/
inductive Merge : List (List Event) → List Event → Prop where
  | done (ls : List (List Event)) (h : ∀ l ∈ ls, l = []) : Merge ls []
  | step (ls : List (List Event)) (i : Nat) (x : Event) (tl : List Event)
      (out : List Event) (hget : ls[i]? = some (x :: tl))
      (hrest : Merge (ls.set i tl) out) : Merge ls (x :: out)

/-- Every `writeE` in the trace is preceded by a `mkdirE` of its parent
directory (scanning left to right, `dirs` is the set of directories known
to exist already). -/
def writesCovered (dirs : List (List String)) : List Event → Bool
  | [] => true
  | .mkdirE p :: rest => writesCovered (p :: dirs) rest
  | .writeE p _ :: rest =>
    decide (p.dropLast ∈ dirs) && writesCovered dirs rest

theorem writesCovered_mono :
    ∀ (t : List Event) (d₁ d₂ : List (List String)), (∀ x ∈ d₁, x ∈ d₂) →
      writesCovered d₁ t = true → writesCovered d₂ t = true := by
  intro t
  induction t with
  | nil => intro _ _ _ _; rfl
  | cons e rest ih =>
    intro d₁ d₂ hsub hcov
    cases e with
    | mkdirE p =>
      simp only [writesCovered] at hcov ⊢
      refine ih (p :: d₁) (p :: d₂) ?_ hcov
      intro x hx
      rcases List.mem_cons.mp hx with h | h
      · exact h ▸ List.mem_cons_self _ _
      · exact List.mem_cons_of_mem _ (hsub x h)
    | writeE p c =>
      simp only [writesCovered, Bool.and_eq_true, decide_eq_true_eq]
        at hcov ⊢
      exact ⟨hsub _ hcov.1, ih d₁ d₂ hsub hcov.2⟩

theorem writesCovered_record_writes (path : List String) (e : EntryInfo)
    (rs : List Record) (dirs : List (List String))
    (hmem : (path ++ [e.name]) ∈ dirs) :
    writesCovered dirs
      (rs.map fun r =>
        Event.writeE (path ++ [e.name, recordFileName r]) r.chunks.flatten) =
      true := by
  induction rs with
  | nil => rfl
  | cons r rs ih =>
    simp only [List.map_cons, writesCovered, Bool.and_eq_true,
      decide_eq_true_eq]
    refine ⟨?_, ih⟩
    have harr : path ++ [e.name, recordFileName r] =
        (path ++ [e.name]) ++ [recordFileName r] := by
      simp
    rw [harr, List.dropLast_concat]
    exact hmem

/-- The trace of one entry pipeline is always internally covered: its own
`mkdir` comes first. -/
theorem writesCovered_entryTrace (dirs : List (List String))
    (path : List String) (e : EntryInfo) (rs : List Record) :
    writesCovered dirs (entryTrace path e rs) = true := by
  simp only [entryTrace, writesCovered]
  exact writesCovered_record_writes path e rs _ (List.mem_cons_self _ _)

theorem writesCovered_merge {ls : List (List Event)} {t : List Event}
    (h : Merge ls t) :
    ∀ dirs, (∀ l ∈ ls, writesCovered dirs l = true) →
      writesCovered dirs t = true := by
  induction h with
  | done ls h => intro dirs _; rfl
  | step ls i x tl out hget hrest ih =>
    intro dirs hall
    have hxtl : (x :: tl) ∈ ls := List.getElem?_mem hget
    have hcov := hall _ hxtl
    cases x with
    | mkdirE p =>
      simp only [writesCovered] at hcov ⊢
      refine ih (p :: dirs) ?_
      intro l hl
      rcases List.mem_or_eq_of_mem_set hl with h' | h'
      · exact writesCovered_mono l dirs (p :: dirs)
          (fun x hx => List.mem_cons_of_mem _ hx) (hall l h')
      · exact h' ▸ hcov
    | writeE p c =>
      simp only [writesCovered, Bool.and_eq_true] at hcov ⊢
      refine ⟨hcov.1, ih dirs ?_⟩
      intro l hl
      rcases List.mem_or_eq_of_mem_set hl with h' | h'
      · exact hall l h'
      · exact h' ▸ hcov.2

/-- C10: under every interleaving of the concurrently-running entry
pipelines, each record-file write is preceded by the `mkdir` of its parent
directory — `_export_bucket` makes the bucket folder before any entry
event, and each `_export_entry` makes its entry directory before its first
write. -/
theorem export_creates_dirs_before_writes (bn : String)
    (ers : List (EntryInfo × List Record)) (t : List Event)
    (h : Merge (ers.map fun er => entryTrace [bn] er.1 er.2) t) :
    writesCovered [] (Event.mkdirE [bn] :: t) = true := by
  show writesCovered [[bn]] t = true
  refine writesCovered_merge h [[bn]] ?_
  intro l hl
  obtain ⟨er, _, rfl⟩ := List.mem_map.mp hl
  exact writesCovered_entryTrace _ _ _ _

/-- Witness for C10 at a concrete interleaving of the two fixture
pipelines. -/
theorem export_creates_dirs_before_writes_witness :
    writesCovered []
      (Event.mkdirE ["src_bucket"] ::
        [Event.mkdirE ["src_bucket", "entry-1"],
         Event.mkdirE ["src_bucket", "entry-2"],
         Event.writeE ["src_bucket", "entry-2", "5000000000.bin"]
           [66, 121, 101],
         Event.writeE ["src_bucket", "entry-1", "1000000000.bin"]
           [72, 101, 121]]) = true := by
  refine export_creates_dirs_before_writes "src_bucket"
    [(entry1, [recHey]), (entry2, [recBye])] _ ?_
  refine Merge.step _ 0 (Event.mkdirE ["src_bucket", "entry-1"])
    [Event.writeE ["src_bucket", "entry-1", "1000000000.bin"] [72, 101, 121]]
    _ (by decide) ?_
  refine Merge.step _ 1 (Event.mkdirE ["src_bucket", "entry-2"])
    [Event.writeE ["src_bucket", "entry-2", "5000000000.bin"] [66, 121, 101]]
    _ (by decide) ?_
  refine Merge.step _ 1
    (Event.writeE ["src_bucket", "entry-2", "5000000000.bin"] [66, 121, 101])
    [] _ (by decide) ?_
  refine Merge.step _ 0
    (Event.writeE ["src_bucket", "entry-1", "1000000000.bin"] [72, 101, 121])
    [] _ (by decide) ?_
  exact Merge.done _ (by decide)

/-! ## Idempotence of the export (C9)

Characterise a successful trace run: directories are the old ones plus the
`mkdir`ed ones, each file holds the last content written to it. -/

def mkdirPaths : List Event → List (List String)
  | [] => []
  | .mkdirE p :: t => p :: mkdirPaths t
  | .writeE _ _ :: t => mkdirPaths t

def lastWrite : List Event → List String → Option (List Nat)
  | [], _ => none
  | .writeE q c :: t, p => (lastWrite t p).or (if p = q then some c else none)
  | .mkdirE _ :: t, p => lastWrite t p

theorem applyTrace_dirExists :
    ∀ (t : List Event) (fs fs' : FS), applyTrace fs t = some fs' →
      ∀ q, fs'.dirExists q = (fs.dirExists q || decide (q ∈ mkdirPaths t)) := by
  intro t
  induction t with
  | nil =>
    intro fs fs' h q
    simp only [applyTrace] at h
    cases h
    simp [mkdirPaths]
  | cons e t ih =>
    intro fs fs' h q
    cases e with
    | mkdirE p =>
      simp only [applyTrace, applyEvent, FS.mkdirExistOk] at h
      by_cases hp : fs.dirExists p = true
      · rw [if_pos hp] at h
        have := ih fs fs' h q
        by_cases hq : q = p
        · subst hq
          simp [mkdirPaths, this, hp]
        · simp [mkdirPaths, this, hq]
      · rw [if_neg hp] at h
        by_cases hpar : fs.dirExists p.dropLast = true
        · rw [if_pos hpar] at h
          have := ih _ fs' h q
          by_cases hq : q = p
          · subst hq
            simp only [this]
            simp [mkdirPaths]
          · simp only [this]
            simp [mkdirPaths, hq]
        · rw [if_neg hpar] at h
          cases h
    | writeE p c =>
      simp only [applyTrace, applyEvent] at h
      by_cases hpar : fs.dirExists p.dropLast = true
      · rw [if_pos hpar] at h
        have := ih _ fs' h q
        simpa [mkdirPaths, FS.writeFile] using this
      · rw [if_neg hpar] at h
        cases h

theorem applyTrace_fileContent :
    ∀ (t : List Event) (fs fs' : FS), applyTrace fs t = some fs' →
      ∀ p, fs'.fileContent p = (lastWrite t p).or (fs.fileContent p) := by
  intro t
  induction t with
  | nil =>
    intro fs fs' h p
    simp only [applyTrace] at h
    cases h
    simp [lastWrite, Option.or]
  | cons e t ih =>
    intro fs fs' h p
    cases e with
    | mkdirE q =>
      simp only [applyTrace, applyEvent, FS.mkdirExistOk] at h
      by_cases hq : fs.dirExists q = true
      · rw [if_pos hq] at h
        simpa [lastWrite] using ih fs fs' h p
      · rw [if_neg hq] at h
        by_cases hpar : fs.dirExists q.dropLast = true
        · rw [if_pos hpar] at h
          simpa [lastWrite] using ih _ fs' h p
        · rw [if_neg hpar] at h
          cases h
    | writeE q c =>
      simp only [applyTrace, applyEvent] at h
      by_cases hpar : fs.dirExists q.dropLast = true
      · rw [if_pos hpar] at h
        have := ih _ fs' h p
        simp only [lastWrite, this, FS.writeFile]
        cases hlw : lastWrite t p with
        | some c' => simp [Option.or]
        | none =>
          by_cases hpq : p = q
          · subst hpq
            simp [Option.or]
          · simp [Option.or, hpq]
      · rw [if_neg hpar] at h
        cases h

/-- Directory monotonicity order on filesystems. -/
def FS.dirLe (fs g : FS) : Prop :=
  ∀ q, fs.dirExists q = true → g.dirExists q = true

theorem applyTrace_dirLe {t : List Event} {fs fs' : FS}
    (h : applyTrace fs t = some fs') : fs.dirLe fs' := by
  intro q hq
  rw [applyTrace_dirExists t fs fs' h q, hq, Bool.true_or]

/-- A run that succeeds from `fs` also succeeds from any filesystem with at
least `fs`'s directories. -/
theorem applyTrace_mono :
    ∀ (t : List Event) (fs g fs' : FS), fs.dirLe g →
      applyTrace fs t = some fs' →
      ∃ g', applyTrace g t = some g' ∧ fs'.dirLe g' := by
  intro t
  induction t with
  | nil =>
    intro fs g fs' hle h
    simp only [applyTrace] at h
    cases h
    exact ⟨g, rfl, hle⟩
  | cons e t ih =>
    intro fs g fs' hle h
    cases e with
    | mkdirE p =>
      simp only [applyTrace, applyEvent, FS.mkdirExistOk] at h ⊢
      by_cases hp : fs.dirExists p = true
      · rw [if_pos hp] at h
        rw [if_pos (hle p hp)]
        exact ih fs g fs' hle h
      · rw [if_neg hp] at h
        by_cases hpar : fs.dirExists p.dropLast = true
        · rw [if_pos hpar] at h
          by_cases hgp : g.dirExists p = true
          · rw [if_pos hgp]
            refine ih _ g fs' ?_ h
            intro q hq
            by_cases hqp : q = p
            · exact hqp ▸ hgp
            · simp only [FS.dirExists] at hq
              rw [if_neg hqp] at hq
              exact hle q hq
          · rw [if_neg hgp, if_pos (hle _ hpar)]
            refine ih _ _ fs' ?_ h
            intro q hq
            simp only [FS.dirExists] at hq ⊢
            by_cases hqp : q = p
            · simp [hqp]
            · rw [if_neg hqp] at hq ⊢
              exact hle q hq
        · rw [if_neg hpar] at h
          cases h
    | writeE p c =>
      simp only [applyTrace, applyEvent] at h ⊢
      by_cases hpar : fs.dirExists p.dropLast = true
      · rw [if_pos hpar] at h
        rw [if_pos (hle _ hpar)]
        exact ih (fs.writeFile p c) (g.writeFile p c) fs' hle h
      · rw [if_neg hpar] at h
        cases h

theorem applyTrace_append (t₁ t₂ : List Event) :
    ∀ fs : FS, applyTrace fs (t₁ ++ t₂) =
      (applyTrace fs t₁).bind fun g => applyTrace g t₂ := by
  induction t₁ with
  | nil => intro fs; rfl
  | cons e t ih =>
    intro fs
    simp only [List.cons_append, applyTrace]
    cases applyEvent fs e with
    | some fs' => exact ih fs'
    | none => rfl

theorem applyTrace_writes (path : List String) (e : EntryInfo) :
    ∀ (rs : List Record) (fs : FS), fs.dirExists (path ++ [e.name]) = true →
      ∃ fs', applyTrace fs
          (rs.map fun r =>
            Event.writeE (path ++ [e.name, recordFileName r])
              r.chunks.flatten) = some fs' ∧
        fs'.dirExists = fs.dirExists := by
  intro rs
  induction rs with
  | nil => intro fs _; exact ⟨fs, rfl, rfl⟩
  | cons r rs ih =>
    intro fs hdir
    have hdl : (path ++ [e.name, recordFileName r]).dropLast =
        path ++ [e.name] := by
      rw [show path ++ [e.name, recordFileName r] =
        (path ++ [e.name]) ++ [recordFileName r] by simp, List.dropLast_concat]
    obtain ⟨fs', hrun, hdirs⟩ := ih (fs.writeFile _ _) hdir
    refine ⟨fs', ?_, hdirs⟩
    simp only [List.map_cons, applyTrace, applyEvent, hdl, hdir, if_true]
    exact hrun

theorem applyTrace_entryTrace (path : List String) (e : EntryInfo)
    (rs : List Record) (fs : FS) (hdir : fs.dirExists path = true) :
    ∃ fs', applyTrace fs (entryTrace path e rs) = some fs' := by
  have hdl : (path ++ [e.name]).dropLast = path := List.dropLast_concat
  by_cases hp : fs.dirExists (path ++ [e.name]) = true
  · obtain ⟨fs', hrun, _⟩ := applyTrace_writes path e rs fs hp
    refine ⟨fs', ?_⟩
    simp only [entryTrace, applyTrace, applyEvent, FS.mkdirExistOk,
      if_pos hp]
    exact hrun
  · obtain ⟨fs', hrun, _⟩ := applyTrace_writes path e rs
      ⟨fun q => if q = path ++ [e.name] then true else fs.dirExists q,
       fs.fileContent⟩ (by simp)
    refine ⟨fs', ?_⟩
    simp only [entryTrace, applyTrace, applyEvent, FS.mkdirExistOk,
      if_neg hp, hdl, hdir, if_true]
    exact hrun

theorem applyTrace_entries (bn : String) :
    ∀ (ers : List (EntryInfo × List Record)) (fs : FS),
      fs.dirExists [bn] = true →
      ∃ fs', applyTrace fs
        ((ers.map fun er => entryTrace [bn] er.1 er.2).flatten) = some fs' := by
  intro ers
  induction ers with
  | nil => intro fs _; exact ⟨fs, rfl⟩
  | cons er ers ih =>
    intro fs hdir
    obtain ⟨g, hg⟩ := applyTrace_entryTrace [bn] er.1 er.2 fs hdir
    obtain ⟨fs', hfs'⟩ := ih g (applyTrace_dirLe hg [bn] hdir)
    refine ⟨fs', ?_⟩
    simp only [List.map_cons, List.flatten_cons, applyTrace_append, hg,
      Option.bind_some]
    exact hfs'

/-- C9: exporting twice is the same as exporting once.  Every record file is
opened in `"wb"` mode, so a second run overwrites each target file with the
same content; the bucket folder and every entry directory are created with
`exist_ok=True`, so their prior existence raises no error.  Hence the second
run succeeds and changes neither any file content nor the set of
directories. -/
theorem export_folder_idempotent (bn : String)
    (ers : List (EntryInfo × List Record)) (fs : FS)
    (hroot : fs.dirExists [] = true) :
    ∃ fs₁ fs₂, applyTrace fs (bucketTraceSeq bn ers) = some fs₁ ∧
      applyTrace fs₁ (bucketTraceSeq bn ers) = some fs₂ ∧
      (∀ p, fs₂.fileContent p = fs₁.fileContent p) ∧
      (∀ q, fs₂.dirExists q = fs₁.dirExists q) := by
  have hrun₁ : ∃ fs₁, applyTrace fs (bucketTraceSeq bn ers) = some fs₁ := by
    by_cases hb : fs.dirExists [bn] = true
    · obtain ⟨fs₁, h₁⟩ := applyTrace_entries bn ers fs hb
      refine ⟨fs₁, ?_⟩
      simp only [bucketTraceSeq, applyTrace, applyEvent, FS.mkdirExistOk,
        if_pos hb]
      exact h₁
    · obtain ⟨fs₁, h₁⟩ := applyTrace_entries bn ers
        ⟨fun q => if q = [bn] then true else fs.dirExists q,
         fs.fileContent⟩ (by simp)
      refine ⟨fs₁, ?_⟩
      have hdl : ([bn] : List String).dropLast = [] := rfl
      simp only [bucketTraceSeq, applyTrace, applyEvent, FS.mkdirExistOk,
        if_neg hb, hdl, hroot, if_true]
      exact h₁
  obtain ⟨fs₁, h₁⟩ := hrun₁
  obtain ⟨fs₂, h₂, _⟩ :=
    applyTrace_mono (bucketTraceSeq bn ers) fs fs₁ fs₁
      (applyTrace_dirLe h₁) h₁
  refine ⟨fs₁, fs₂, h₁, h₂, ?_, ?_⟩
  · intro p
    have e₁ := applyTrace_fileContent _ fs fs₁ h₁ p
    have e₂ := applyTrace_fileContent _ fs₁ fs₂ h₂ p
    rw [e₂, e₁]
    cases lastWrite (bucketTraceSeq bn ers) p with
    | some c => rfl
    | none => rfl
  · intro q
    have e₁ := applyTrace_dirExists _ fs fs₁ h₁ q
    have e₂ := applyTrace_dirExists _ fs₁ fs₂ h₂ q
    rw [e₂, e₁, Bool.or_assoc, Bool.or_self]

/-- An initial filesystem: just the working directory. -/
def fsRoot : FS :=
  ⟨fun q => decide (q = []), fun _ => none⟩

/-- Witness for C9 on the test fixture, starting from a bare working
directory. -/
theorem export_folder_idempotent_witness :
    ∃ fs₁ fs₂,
      applyTrace fsRoot (bucketTraceSeq "src_bucket" [(entry1, [recHey])]) =
        some fs₁ ∧
      applyTrace fs₁ (bucketTraceSeq "src_bucket" [(entry1, [recHey])]) =
        some fs₂ ∧
      (∀ p, fs₂.fileContent p = fs₁.fileContent p) ∧
      (∀ q, fs₂.dirExists q = fs₁.dirExists q) :=
  export_folder_idempotent "src_bucket" [(entry1, [recHey])] fsRoot (by rfl)

/-! ## `asyncio.gather` semantics (C2)

`_export_bucket` awaits `asyncio.gather(*tasks)` with the default
`return_exceptions=False`: the tasks run interleaved at their suspension
points; when one raises, the gather future completes with that exception
immediately — the siblings are not cancelled (their pending work is left
intact), but `run_until_complete` returns without running them further.
A pipeline is a list of steps, each of which either succeeds or raises. -/

inductive StepR where
  | ok
  | fail (msg : String)
  deriving Repr, DecidableEq

/-- One cooperative run: `sched` picks which task advances at each turn.
Result: `some none` = gather completed normally, `some (some m)` = gather
completed with exception `m`, `none` = the schedule ended first; paired
with each task's remaining (unexecuted) steps at that point. -/
def runGather : List Nat → List (List StepR) →
    Option (Option String) × List (List StepR)
  | [], tasks =>
    if tasks.all List.isEmpty then (some none, tasks) else (none, tasks)
  | i :: sched, tasks =>
    if tasks.all List.isEmpty then (some none, tasks)
    else
      match tasks[i]? with
      | some (StepR.fail m :: tl) => (some (some m), tasks.set i tl)
      | some (StepR.ok :: tl) => runGather sched (tasks.set i tl)
      | some [] => runGather sched tasks
      | none => runGather sched tasks

/-- Exit code of the `folder` command given how the gather settled
(`error_handle` exits 1 on an exception, 0 otherwise). -/
def gatherExitCode : Option (Option String) → Nat
  | some (some _) => 1
  | _ => 0

theorem forall₂_suffix_refl (ls : List (List StepR)) :
    List.Forall₂ (fun a b => a.IsSuffix b) ls ls :=
  List.forall₂_same.mpr fun a _ => List.suffix_refl a

theorem forall₂_suffix_set :
    ∀ (ls : List (List StepR)) (i : Nat) (x : StepR) (tl : List StepR),
      ls[i]? = some (x :: tl) →
      List.Forall₂ (fun a b => a.IsSuffix b) (ls.set i tl) ls := by
  intro ls
  induction ls with
  | nil => intro i x tl h; simp at h
  | cons a as ih =>
    intro i x tl h
    cases i with
    | zero =>
      simp only [List.getElem?_cons_zero, Option.some.injEq] at h
      subst h
      exact List.Forall₂.cons (List.suffix_cons x tl) (forall₂_suffix_refl as)
    | succ n =>
      simp only [List.getElem?_cons_succ] at h
      exact List.Forall₂.cons (List.suffix_refl a) (ih n x tl h)

theorem forall₂_suffix_trans :
    ∀ {as bs cs : List (List StepR)},
      List.Forall₂ (fun a b => a.IsSuffix b) as bs →
      List.Forall₂ (fun a b => a.IsSuffix b) bs cs →
      List.Forall₂ (fun a b => a.IsSuffix b) as cs := by
  intro as bs cs h₁ h₂
  induction h₁ generalizing cs with
  | nil => cases h₂; exact List.Forall₂.nil
  | cons hab htail ih =>
    cases h₂ with
    | cons hbc htail' =>
      exact List.Forall₂.cons (hab.trans hbc) (ih htail')

/-- C2 (amended): when a pipeline raises, the command settles with exit
code 1 without cancelling the siblings — every task's remaining steps are
an intact suffix of its pipeline (nothing is torn down or skipped) — but
also without awaiting them; only a run that settles normally (`some none`)
guarantees that every pipeline ran to completion. -/
theorem gather_error_no_cancel_no_await :
    ∀ (sched : List Nat) (tasks : List (List StepR))
      (res : Option (Option String)) (rem : List (List StepR)),
      runGather sched tasks = (res, rem) →
      List.Forall₂ (fun a b => a.IsSuffix b) rem tasks ∧
      (∀ m, res = some (some m) → gatherExitCode res = 1) ∧
      (res = some none → ∀ l ∈ rem, l = []) := by
  intro sched
  induction sched with
  | nil =>
    intro tasks res rem h
    simp only [runGather] at h
    split at h
    next hall =>
      injection h with h₁ h₂
      subst h₁; subst h₂
      refine ⟨forall₂_suffix_refl tasks, fun m hm => absurd hm (by simp),
        fun _ l hl => ?_⟩
      have := List.all_eq_true.mp hall l hl
      simpa using this
    next hall =>
      injection h with h₁ h₂
      subst h₁; subst h₂
      exact ⟨forall₂_suffix_refl tasks, fun m hm => absurd hm (by simp),
        fun hm => absurd hm (by simp)⟩
  | cons i sched ih =>
    intro tasks res rem h
    simp only [runGather] at h
    split at h
    next hall =>
      injection h with h₁ h₂
      subst h₁; subst h₂
      refine ⟨forall₂_suffix_refl tasks, fun m hm => absurd hm (by simp),
        fun _ l hl => ?_⟩
      have := List.all_eq_true.mp hall l hl
      simpa using this
    next =>
      split at h
      next m tl heq =>
        injection h with h₁ h₂
        subst h₁; subst h₂
        exact ⟨forall₂_suffix_set tasks i (StepR.fail m) tl heq,
          fun _ _ => rfl, fun hm => absurd hm (by simp)⟩
      next tl heq =>
        obtain ⟨hf, he, hc⟩ := ih (tasks.set i tl) res rem h
        exact ⟨forall₂_suffix_trans hf
          (forall₂_suffix_set tasks i StepR.ok tl heq), he, hc⟩
      next heq =>
        exact ih tasks res rem h
      next heq =>
        exact ih tasks res rem h

/-- Witness for the amended C2 at a concrete run that settles normally. -/
theorem gather_error_no_cancel_no_await_witness :
    List.Forall₂ (fun (a b : List StepR) => a.IsSuffix b) [[], []]
        [[StepR.ok], [StepR.ok]] ∧
      (∀ m, (some none : Option (Option String)) = some (some m) →
        gatherExitCode (some none) = 1) ∧
      ((some none : Option (Option String)) = some none →
        ∀ l ∈ ([[], []] : List (List StepR)), l = []) :=
  gather_error_no_cancel_no_await [0, 1, 1] [[StepR.ok], [StepR.ok]]
    (some none) [[], []] (by decide)

/-- C2 as claimed is false: with pipelines `[fail "boom"]` and
`[ok, ok]` scheduled failing-task-first, the command settles with the
error while the sibling still has both of its steps pending — the sibling
did not run to completion before termination. -/
theorem gather_abandons_running_siblings :
    runGather [0] [[StepR.fail "boom"], [StepR.ok, StepR.ok]] =
      (some (some "boom"), [[], [StepR.ok, StepR.ok]]) ∧
    ¬ (∀ (sched : List Nat) (tasks rem : List (List StepR)) (m : String),
        runGather sched tasks = (some (some m), rem) → ∀ l ∈ rem, l = []) := by
  refine ⟨by decide, fun h => ?_⟩
  have := h [0] [[StepR.fail "boom"], [StepR.ok, StepR.ok]]
    [[], [StepR.ok, StepR.ok]] "boom" (by decide)
    [StepR.ok, StepR.ok] (by simp)
  exact absurd this (by decide)

/-! ## Record stream reader bounds (modelled from the spec, C6)

`read_records_with_progress` lives in `reduct_cli/utils/helpers.py`, which
is not under `src/`; only its caller and tests are. -/

/-- Modelled from the spec: when `start` is `None` the effective query
start is the entry's own `oldest_record`; when `stop` is `None` the
effective stop is the entry's own `latest_record`. -/
def effectiveInterval (e : EntryInfo) (start stop : Option Nat) : Nat × Nat :=
  (start.getD e.oldest_record, stop.getD e.latest_record)

/-- The query issued for each entry pipeline: entry name with its effective
bounds, the substitution happening once per entry. -/
def queryArgs (entries : List EntryInfo) (start stop : Option Nat) :
    List (String × Nat × Nat) :=
  entries.map fun e => (e.name, effectiveInterval e start stop)

/-- C6: every entry is queried with bounds substituted from its *own*
metadata — unbounded start becomes that entry's `oldest_record`, unbounded
stop that entry's `latest_record` — so two entries with different ranges
get different effective bounds. -/
theorem reader_substitutes_bounds_per_entry (entries : List EntryInfo)
    (start stop : Option Nat) (e₁ e₂ : EntryInfo)
    (h₁ : e₁.oldest_record ≠ e₂.oldest_record)
    (h₂ : e₁.latest_record ≠ e₂.latest_record) :
    queryArgs entries start stop =
      entries.map (fun e =>
        (e.name, start.getD e.oldest_record, stop.getD e.latest_record)) ∧
    (effectiveInterval e₁ none stop).1 = e₁.oldest_record ∧
    (effectiveInterval e₁ start none).2 = e₁.latest_record ∧
    (effectiveInterval e₁ none stop).1 ≠ (effectiveInterval e₂ none stop).1 ∧
    (effectiveInterval e₁ start none).2 ≠ (effectiveInterval e₂ start none).2 :=
  ⟨rfl, rfl, rfl, h₁, h₂⟩

/-- Witness for C6 on the fixture entries (oldest 1000000000 vs 6000000000,
latest 5000000000 vs 8000000000). -/
theorem reader_substitutes_bounds_per_entry_witness :
    queryArgs [entry1, entry2] none none =
      [entry1, entry2].map (fun e =>
        (e.name, (none : Option Nat).getD e.oldest_record,
          (none : Option Nat).getD e.latest_record)) ∧
    (effectiveInterval entry1 none none).1 = entry1.oldest_record ∧
    (effectiveInterval entry1 none none).2 = entry1.latest_record ∧
    (effectiveInterval entry1 none none).1 ≠
      (effectiveInterval entry2 none none).1 ∧
    (effectiveInterval entry1 none none).2 ≠
      (effectiveInterval entry2 none none).2 :=
  reader_substitutes_bounds_per_entry [entry1, entry2] none none entry1
    entry2 (by decide) (by decide)

/-! ## Size parsing and the bucket-create command (modelled from the spec,
C7)

Size parsing lives in `reduct_cli/utils/helpers.py` and its caller in
`reduct_cli/bucket.py`, neither under `src/`. -/

/-- Modelled from the spec: split off a unit suffix from the fixed set
`B`, `Kb`, `Mb`, `Gb`, `Tb` (decimal powers of 1000), returning the
magnitude part and the multiplier. -/
def sizeMultiplier (s : String) : Option (List Char × Nat) :=
  let cs := s.toList
  if List.isSuffixOf ['K', 'b'] cs then some (cs.take (cs.length - 2), 1000)
  else if List.isSuffixOf ['M', 'b'] cs then
    some (cs.take (cs.length - 2), 1000000)
  else if List.isSuffixOf ['G', 'b'] cs then
    some (cs.take (cs.length - 2), 1000000000)
  else if List.isSuffixOf ['T', 'b'] cs then
    some (cs.take (cs.length - 2), 1000000000000)
  else if List.isSuffixOf ['B'] cs then some (cs.take (cs.length - 1), 1)
  else none

/-- Modelled from the spec: the magnitude must be an integer or a float —
decimal digits with at most one point and at least one digit. -/
def isNumericMagnitude (cs : List Char) : Bool :=
  !cs.isEmpty && cs.all (fun c => c.isDigit || c == '.') &&
    decide ((cs.filter fun c => c == '.').length ≤ 1) &&
    cs.any Char.isDigit

def digitsVal (cs : List Char) : Nat :=
  cs.foldl (fun a c => a * 10 + (c.toNat - 48)) 0

/-- Value of a numeric magnitude times the multiplier, floored to bytes. -/
def magnitudeValue (cs : List Char) (mult : Nat) : Nat :=
  let ip := cs.takeWhile fun c => c != '.'
  let fp := (cs.dropWhile fun c => c != '.').drop 1
  digitsVal ip * mult + digitsVal fp * mult / 10 ^ fp.length

/-- Modelled from the spec: size parsing; on failure the `ParseError`
carries exactly `Failed to parse <input>`. -/
def parseSize (s : String) : Except String Nat :=
  match sizeMultiplier s with
  | none => .error ("Failed to parse " ++ s)
  | some (mag, mult) =>
    if isNumericMagnitude mag then .ok (magnitudeValue mag mult)
    else .error ("Failed to parse " ++ s)

/-- The spec's wellformedness condition on a size string: a suffix from
the fixed unit set and a numeric magnitude. -/
def sizeWellFormed (s : String) : Bool :=
  match sizeMultiplier s with
  | none => false
  | some (mag, _) => isNumericMagnitude mag

/-- Modelled from the spec: the bucket-create command parses the size
options before touching the destination; on a parse error the command
fails and `create_bucket` is never called.  The boolean records whether
`create_bucket` was called. -/
def bucketCreateCmd (quotaSize : Option String) : Except String Nat × Bool :=
  match quotaSize with
  | none => (.ok 0, true)
  | some s =>
    match parseSize s with
    | .ok n => (.ok n, true)
    | .error m => (.error m, false)

/-- C7: every size string that is not a numeric magnitude followed by a
unit from `B`, `Kb`, `Mb`, `Gb`, `Tb` makes parsing fail with exactly
`Failed to parse <input>`, and the bucket-create command then never calls
`create_bucket`. -/
theorem malformed_size_rejected_without_mutation (s : String)
    (h : sizeWellFormed s = false) :
    parseSize s = .error ("Failed to parse " ++ s) ∧
    bucketCreateCmd (some s) = (.error ("Failed to parse " ++ s), false) := by
  have hp : parseSize s = .error ("Failed to parse " ++ s) := by
    unfold sizeWellFormed at h
    unfold parseSize
    cases hm : sizeMultiplier s with
    | none => rfl
    | some p =>
      obtain ⟨mag, mult⟩ := p
      rw [hm] at h
      simp only at h
      simp only [h, if_false]
      exact if_neg (by simp [h])
  refine ⟨hp, ?_⟩
  simp [bucketCreateCmd, hp]

/-- Witness for C7 at the test's malformed input `100XX`. -/
theorem malformed_size_rejected_without_mutation_witness :
    parseSize "100XX" = .error ("Failed to parse " ++ "100XX") ∧
    bucketCreateCmd (some "100XX") =
      (.error ("Failed to parse " ++ "100XX"), false) :=
  malformed_size_rejected_without_mutation "100XX" (by decide)

/-! ## Error reporting (modelled from the spec, C8)

`error_handle` lives in `reduct_cli/utils/error.py`, not under `src/`;
`export.py` wraps the whole `folder` command body in it. -/

structure CmdError where
  kind : String
  msg : String

/-- Modelled from the spec: `error_handle` catches any unrecovered error,
prints the single line `[<ErrorKind>] <message>` followed by `Aborted!`
(no stack trace), and the process exits 1; with no error nothing is
printed and the exit code is 0.  Returns (exit code, failure output
lines). -/
def commandOutcome (body : Except CmdError Unit) : Nat × List String :=
  match body with
  | .ok _ => (0, [])
  | .error e => (1, ["[" ++ e.kind ++ "] " ++ e.msg, "Aborted!"])

/-- C8: an invocation ending with an unrecovered error exits 1 and its
entire failure output is the line `[<ErrorKind>] <message>` followed by
`Aborted!` — nothing else, so no stack trace; an invocation with no
unrecovered error exits 0.  The concrete case reproduces the tests'
`[RuntimeError] Oops` / `Aborted!`. -/
theorem error_format_and_exit_codes :
    (∀ e : CmdError, commandOutcome (.error e) =
      (1, ["[" ++ e.kind ++ "] " ++ e.msg, "Aborted!"])) ∧
    commandOutcome (.ok ()) = (0, []) ∧
    commandOutcome (.error ⟨"RuntimeError", "Oops"⟩) =
      (1, ["[RuntimeError] Oops", "Aborted!"]) :=
  ⟨fun e => rfl, rfl, by decide⟩

end ReductCli
